import Mathlib

/-!
Verification of the Project CYSTEM retrieval-and-answer-caching pipeline.

This file gives a shallow embedding, in Lean, of the algorithmic core of the
repository (an Express server `server.js` plus the knowledge-base build
scripts) and proves or refutes the specified properties against it.

Modelling conventions:
* JavaScript strings are modelled as Lean `String`/`List Char`.  String
  `length` is the number of characters (the inputs of interest are ASCII, so
  UTF-16 code-unit counts coincide).  `jsTrim`/`trimWs` model JS `trim` on
  the ASCII whitespace the code actually meets.
* JS numbers: scores that the code computes by exact field operations are
  modelled in `ℚ`; cosine similarity, which calls `Math.sqrt`, is modelled in
  `ℝ`.
* JS `Set` iteration/`Map` are modelled by deduplicated lists and association
  lists (`Map.get` is last-write-wins, mirrored by `lookupLast`).
* The mutable module state (`chatCache` plus its synchronous persistence via
  `saveChatCache`) is modelled by explicit state passing: the cache value a
  function returns is the authoritative persisted state.
* Network calls (embedding and generation providers) are suspension points;
  their outcomes are passed to the pipeline as explicit `Except` arguments.
* `Array.prototype.sort` with comparator `(a, b) => b.score - a.score` is a
  stable descending sort (ES2019); it is modelled by `List.insertionSort`
  with the relation `b.score ≤ a.score`, which is stable in the same sense.
-/

set_option maxHeartbeats 1600000
set_option maxRecDepth 8192

/-! ### Character and word-boundary helpers (JS regex `\w`, `\b`) -/

/-- JS regex word character `[A-Za-z0-9_]` (patterns are ASCII, no `u` flag). -/
def isWordChar (c : Char) : Bool := c.isAlpha || c.isDigit || c == '_'

/-- `isPrefixWordEnd pat s` holds when `pat` is a prefix of `s` and the
character of `s` immediately after the match is not a word character (the
trailing `\b` of the guardrail patterns; all patterns end in a word char). -/
def isPrefixWordEnd : List Char → List Char → Bool
  | [], [] => true
  | [], c :: _ => !isWordChar c
  | _ :: _, [] => false
  | p :: ps, c :: cs => p == c && isPrefixWordEnd ps cs

/-- Scan `s` for an occurrence of one of `alts` with `\b` on both sides.
`prev` records whether the character before the current position is a word
character (all alternatives start with a word character, so `\b` before the
match means `prev = false`). -/
def scanWordMatch (alts : List (List Char)) : Bool → List Char → Bool
  | _, [] => false
  | prev, c :: cs =>
    (!prev && alts.any (fun pat => isPrefixWordEnd pat (c :: cs))) ||
      scanWordMatch alts (isWordChar c) cs

/-- Line terminators that JS regex `.` (no `s` flag) does not match. -/
def isLineTerminator (c : Char) : Bool :=
  c == '\n' || c == '\r' || c == Char.ofNat 0x2028 || c == Char.ofNat 0x2029

/-- Scan for `\b(mg|dose)\b` reachable from the current position through `.*`
(no line terminator may be crossed). -/
def scanDotTail (alts : List (List Char)) : Bool → List Char → Bool
  | _, [] => false
  | prev, c :: cs =>
    (!prev && alts.any (fun pat => isPrefixWordEnd pat (c :: cs))) ||
      (!isLineTerminator c && scanDotTail alts (isWordChar c) cs)

def mgDoseAlts : List (List Char) := [String.toList "mg", String.toList "dose"]

/-- Scan for `\bhow much\b.*\b(mg|dose)\b`: find `how much` with word
boundaries, then search the rest (the character before position 8 is the
word character `h`, hence the initial `prev = true`). -/
def scanHowMuch : Bool → List Char → Bool
  | _, [] => false
  | prev, c :: cs =>
    (!prev && isPrefixWordEnd (String.toList "how much") (c :: cs) &&
        scanDotTail mgDoseAlts true ((c :: cs).drop 8)) ||
      scanHowMuch (isWordChar c) cs

/-- The alternatives of the first `blockedMedicalPatterns` regex
`\b(dose|dosage|mg|prescribe|prescription|medication plan|treat me|diagnose me)\b`. -/
def blockedWordAlts : List (List Char) :=
  [String.toList "dose", String.toList "dosage", String.toList "mg",
   String.toList "prescribe", String.toList "prescription",
   String.toList "medication plan", String.toList "treat me",
   String.toList "diagnose me"]

/-- `isBlockedMedicalQuestion` from `server.js`: the question matches one of
the two fixed guardrail regexes.  The `i` flag is modelled by lowercasing the
input (the patterns are lowercase ASCII). -/
def isBlockedMedicalQuestion (q : String) : Bool :=
  let s := q.toList.map Char.toLower
  scanWordMatch blockedWordAlts false s || scanHowMuch false s

/-! ### `normalizeText` and `tokenize` from `server.js` -/

/-- Lowercase ASCII letter or digit: the characters `normalizeText` keeps. -/
def isLowerAlnum (c : Char) : Bool := ('a' ≤ c && c ≤ 'z') || ('0' ≤ c && c ≤ '9')

/-- One character of `normalizeText`'s replace step: after lowercasing, any
character outside `[a-z0-9]` is replaced by a space (the code first replaces
`[^a-z0-9\s]` by spaces and then collapses `\s+`; mapping every non-kept
character to a space before collapsing yields the same string). -/
def jsCleanChar (c : Char) : Char := if isLowerAlnum c then c else ' '

/-- Collapse every run of whitespace to a single space (`.replace(/\s+/g, ' ')`).
`prev` records whether the previous character was whitespace. -/
def collapseWs : Bool → List Char → List Char
  | _, [] => []
  | prev, c :: cs =>
    if c.isWhitespace then
      if prev then collapseWs true cs else ' ' :: collapseWs true cs
    else c :: collapseWs false cs

/-- JS `String.prototype.trim` on a character list. -/
def trimWs (l : List Char) : List Char :=
  ((l.dropWhile Char.isWhitespace).reverse.dropWhile Char.isWhitespace).reverse

/-- `normalizeText` from `server.js`: lowercase, replace characters outside
`[a-z0-9\s]` by spaces, collapse whitespace, trim. -/
def normalizeText (s : String) : String :=
  String.mk (trimWs (collapseWs false (s.toList.map (fun c => jsCleanChar (Char.toLower c)))))

/-- JS `split(' ')`: split on single space characters. -/
def splitSp : List Char → List Char → List (List Char)
  | [], cur => [cur.reverse]
  | c :: cs, cur => if c == ' ' then cur.reverse :: splitSp cs [] else splitSp cs (c :: cur)

/-- `tokenize` from `server.js`: `normalizeText(value).split(' ')` filtered to
tokens of length `> 2`. -/
def tokenize (s : String) : List String :=
  ((splitSp (normalizeText s).toList []).map String.mk).filter (fun t => 2 < t.length)

/-- The token set `new Set(tokenize(s))` as a deduplicated list (only its
membership and cardinality are ever used). -/
def tokSet (s : String) : List String := (tokenize s).dedup

/-- `overlap`: the number of tokens of `a` that are members of `b`
(the `for (const token of qTokens) if (pTokens.has(token)) overlap += 1` loop). -/
def overlapCount (a b : List String) : Nat := (a.filter (fun t => decide (t ∈ b))).length

/-! ### Data model -/

/-- A source reference `{title, url}` as returned to the client. -/
structure SourceRef where
  title : String
  url : String
deriving DecidableEq, Repr

/-- A knowledge document chunk.  The metadata fields the pipeline never reads
(`section`, `tags`, `token_estimate`) are omitted. -/
structure Doc where
  id : String
  title : String
  url : String
  content : String
deriving DecidableEq, Repr

/-- An FAQ entry `{prompts, answer, sources}` (the `id` field is never read
by the matcher). -/
structure Faq where
  prompts : List String
  answer : String
  sources : List SourceRef
deriving DecidableEq, Repr

/-- A persisted cache entry `{answer, sources, timestamp}` (ms). -/
structure CacheEntry where
  answer : String
  sources : List SourceRef
  timestamp : Nat
deriving DecidableEq, Repr

/-- The chat cache object, keyed by normalized question text. -/
abbrev Cache := List (String × CacheEntry)

/-- JS object property lookup (the model keeps at most one entry per key). -/
def lookupCache (c : Cache) (k : String) : Option CacheEntry :=
  (c.find? (fun p => p.1 == k)).map (·.2)

/-- `delete chatCache[cacheKey]`. -/
def eraseCache (c : Cache) (k : String) : Cache :=
  c.filter (fun p => !(p.1 == k))

/-- `chatCache[cacheKey] = value` (overwrite). -/
def insertCache (c : Cache) (k : String) (v : CacheEntry) : Cache :=
  eraseCache c k ++ [(k, v)]

/-- `getCachedAnswer` from `server.js`, with the ambient state made explicit:
it receives the cache, the current time and the TTL in ms, and returns the
hit (if any) together with the resulting (persisted) cache state.  The code
evicts when `Date.now() - item.timestamp > ttlMs`. -/
def getCachedAnswer (c : Cache) (k : String) (now ttlMs : Nat) : Option CacheEntry × Cache :=
  match lookupCache c k with
  | none => (none, c)
  | some item =>
    if ttlMs < now - item.timestamp then (none, eraseCache c k) else (some item, c)

/-- `setCachedAnswer`: store the value with the current timestamp and persist. -/
def setCachedAnswer (c : Cache) (k : String) (answer : String) (sources : List SourceRef)
    (now : Nat) : Cache :=
  insertCache c k ⟨answer, sources, now⟩

/-! ### FAQ matcher (`findFaqAnswer` from `server.js`) -/

/-- All (entry, prompt) pairs in iteration order (outer loop over FAQ
entries, inner loop over each entry's prompts). -/
def faqPairs (faqs : List Faq) : List (Faq × String) :=
  faqs.flatMap (fun f => f.prompts.map (fun p => (f, p)))

/-- One iteration of the best-score tracking loop: prompts with an empty
token set are skipped, and `best`/`bestScore` are updated on a strictly
better score. -/
def faqStep (qT : List String) (acc : Option Faq × ℚ) (pr : Faq × String) : Option Faq × ℚ :=
  let pT := tokSet pr.2
  if pT.length = 0 then acc
  else
    let score : ℚ := (overlapCount qT pT : ℚ) / (max qT.length pT.length : ℚ)
    if acc.2 < score then (some pr.1, score) else acc

/-- `findFaqAnswer` from `server.js`: track the best-scoring entry over all
(entry, prompt) pairs and return it when `bestScore >= 0.7` (when no pair
ever scored above 0, `best` is `null` and the result is `null` either way,
which the final `if` reproduces because `bestScore = 0 < 0.7`). -/
def findFaqAnswer (faqs : List Faq) (question : String) : Option Faq :=
  let qT := tokSet question
  if qT.length = 0 then none
  else
    let r := (faqPairs faqs).foldl (faqStep qT) (none, 0)
    if (7 : ℚ) / 10 ≤ r.2 then r.1 else none

/-- The score of one (entry, prompt) pair, with skipped (token-free) prompts
scoring 0. -/
def pairScore (qT : List String) (pr : Faq × String) : ℚ :=
  let pT := tokSet pr.2
  if pT.length = 0 then 0
  else (overlapCount qT pT : ℚ) / (max qT.length pT.length : ℚ)

/-- The best score over all (entry, prompt) pairs (0 when there are none). -/
def bestScoreSpec (faqs : List Faq) (question : String) : ℚ :=
  (faqPairs faqs).foldl (fun s pr => max s (pairScore (tokSet question) pr)) 0

/-! ### Keyword retrieval (`retrieveByKeyword` from `server.js`) -/

/-- A scored document in keyword mode (exact rational score). -/
structure KScored where
  doc : Doc
  score : ℚ
deriving DecidableEq, Repr

/-- Descending order on keyword scores; with `List.insertionSort` this is a
stable descending sort, matching `Array.prototype.sort` with comparator
`(a, b) => b.score - a.score`. -/
def kDesc (a b : KScored) : Prop := b.score ≤ a.score

instance : DecidableRel kDesc := fun a b => inferInstanceAs (Decidable (b.score ≤ a.score))

instance : IsTotal KScored kDesc := ⟨fun a b => le_total b.score a.score⟩

instance : IsTrans KScored kDesc := ⟨fun _ _ _ h1 h2 => le_trans h2 h1⟩

/-- The score `overlap / max(1, qTokens.size)` of one document against the
query (the document text is `` `${doc.title || ''} ${doc.content || ''}` ``). -/
def keywordScore (question : String) (d : Doc) : ℚ :=
  (overlapCount (tokSet question) (tokSet (d.title ++ " " ++ d.content)) : ℚ) /
    (max 1 (tokSet question).length : ℚ)

/-- The mapped list `ragDocuments.map((doc) => ({doc, score}))`. -/
def kScoredAll (question : String) (docs : List Doc) : List KScored :=
  docs.map (fun d => ⟨d, keywordScore question d⟩)

/-- After `.filter((item) => item.score > 0)`. -/
def kScoredPos (question : String) (docs : List Doc) : List KScored :=
  (kScoredAll question docs).filter (fun x => decide (0 < x.score))

/-- `retrieveByKeyword` from `server.js`: empty query token set short-circuits
to `[]`; otherwise score, keep positive scores, stable-sort descending and
take the first `limit`. -/
def retrieveByKeyword (docs : List Doc) (question : String) (limit : Nat) : List KScored :=
  if (tokSet question).length = 0 then []
  else ((kScoredPos question docs).insertionSort kDesc).take limit

/-! ### Cosine similarity (`cosineSimilarity` from `server.js`) -/

/-- `normA`/`normB`: the sum of squares accumulated by the loop. -/
def sumSq (a : List ℚ) : ℚ := (a.map (fun x => x * x)).sum

/-- `dot`: the pointwise-product sum accumulated by the loop (the code only
runs it on equal-length vectors). -/
def dotQ (a b : List ℚ) : ℚ := (List.zipWith (· * ·) a b).sum

/-- `cosineSimilarity` from `server.js`: `-1` on dimension mismatch, empty
input, or a zero norm; otherwise `dot / (sqrt(normA) * sqrt(normB))`.  The
square root forces the value into `ℝ`; vector components stay exact in `ℚ`. -/
noncomputable def cosineSimilarity (a b : List ℚ) : ℝ :=
  if a.length ≠ b.length ∨ a.length = 0 then -1
  else if sumSq a = 0 ∨ sumSq b = 0 then -1
  else (dotQ a b : ℝ) / (Real.sqrt (sumSq a) * Real.sqrt (sumSq b))

/-! ### Retrieval engine (`retrieveContext` from `server.js`) -/

/-- A scored document in vector mode (real-valued cosine score). -/
structure VScored where
  doc : Doc
  score : ℝ

/-- Keyword results are plain numbers in JS; lifting them into the vector
result type is the identity on the underlying values. -/
noncomputable def kToV (k : KScored) : VScored := ⟨k.doc, (k.score : ℝ)⟩

/-- Descending order on vector scores (stable sort, as for keyword mode). -/
def vDesc (a b : VScored) : Prop := b.score ≤ a.score

noncomputable instance : DecidableRel vDesc :=
  fun a b => inferInstanceAs (Decidable (b.score ≤ a.score))

/-- JS `Map.get` on an association list built by repeated `set`: the last
binding for a key wins. -/
def lookupLast (m : List (String × List ℚ)) (k : String) : Option (List ℚ) :=
  m.foldl (fun acc p => if p.1 == k then some p.2 else acc) none

/-- The process-wide chat state loaded by `loadChatData`, plus the provider
credential.  `ragEmbeddings = none` models a missing/invalid
`embeddings.json` (`ragEmbeddingsById = null`). -/
structure ChatState where
  ragDocuments : List Doc
  ragFaqs : List Faq
  ragEmbeddings : Option (List (String × List ℚ))
  chatCache : Cache
  apiKey : String

/-- The vector-mode scored list: for each document with an indexed vector,
keep it iff its cosine score against the query embedding is `> 0`. -/
noncomputable def vectorScored (qe : List ℚ) (m : List (String × List ℚ))
    (docs : List Doc) : List VScored :=
  docs.filterMap (fun d =>
    match lookupLast m d.id with
    | none => none
    | some v =>
      let s := cosineSimilarity qe v
      if 0 < s then some ⟨d, s⟩ else none)

/-- `retrieveContext` from `server.js`.  The embedding provider call is a
suspension point whose outcome is the explicit argument `embedResult`
(`.error` models a thrown/failed call, caught by the `try`).  Vector mode
runs only when a key is configured and the embedding index is non-empty; an
empty positive-score list, like an error, falls back to keyword retrieval. -/
noncomputable def retrieveContext (st : ChatState) (embedResult : Except String (List ℚ))
    (question : String) (limit : Nat) : List VScored :=
  if st.ragDocuments.isEmpty then []
  else
    match st.ragEmbeddings with
    | some m =>
      if st.apiKey ≠ "" ∧ ¬ m.isEmpty then
        match embedResult with
        | .error _ => (retrieveByKeyword st.ragDocuments question limit).map kToV
        | .ok qe =>
          let scored := vectorScored qe m st.ragDocuments
          if scored.isEmpty then (retrieveByKeyword st.ragDocuments question limit).map kToV
          else (scored.insertionSort vDesc).take limit
      else (retrieveByKeyword st.ragDocuments question limit).map kToV
    | none => (retrieveByKeyword st.ragDocuments question limit).map kToV

/-! ### Chat pipeline (`app.post('/api/chat')` from `server.js`) -/

/-- The reply shapes of the chat endpoint that the pipeline produces:
a 200 payload `{answer, sources, cached}`, a 400 client error, or a 503/500
unavailability error. -/
inductive ChatResponse where
  | ok (answer : String) (sources : List SourceRef) (cached : Bool)
  | clientError (message : String)
  | unavailable (message : String)
deriving DecidableEq, Repr

def lengthErrorMessage : String := "Please send a question between 4 and 800 characters."

def guardrailRefusal : String :=
  "I can share general educational information, but I cannot provide diagnosis, prescriptions, or dosage advice. Please consult a licensed clinician for personal medical guidance."

def faqDisclaimer : String := "\n\nThis is educational information, not medical advice."

def configErrorMessage : String := "Chatbot is not configured yet (missing OPENAI_API_KEY)."

def noDataAnswer : String :=
  "I do not have enough trusted information in the current knowledge base to answer that. Please contact a licensed clinician or use our trusted resource links."

def providerErrorMessage : String := "Chat assistant is temporarily unavailable."

def generationFallback : String := "I could not generate an answer right now."

def finalDisclaimer : String := "\n\nThis is educational information and not medical advice."

/-- JS `String.prototype.trim` on a `String` (via `trimWs`). -/
def jsTrim (s : String) : String := String.mk (trimWs s.toList)

/-- `buildSourceList`: deduplicate by URL, keeping the first occurrence. -/
def buildSourceList (items : List VScored) : List SourceRef :=
  items.foldl
    (fun acc it =>
      if acc.any (fun s => s.url == it.doc.url) then acc
      else acc ++ [⟨it.doc.title, it.doc.url⟩])
    []

/-- The `/api/chat` handler body with `CHATBOT_ENABLED = true` (the enabled
flag is a deployment toggle ahead of the pipeline).  Ambient state and the
two provider calls are explicit arguments: `embedResult` is the embedding
call's outcome, `genResult` the generation call's outcome (its `.ok` payload
is the `message.content` string; a thrown error is caught by the handler's
`try` and becomes the 500 response).  The returned cache is the persisted
cache state after the request. -/
noncomputable def processChat (st : ChatState) (ttlMs contextChunks now : Nat)
    (embedResult : Except String (List ℚ)) (genResult : Except Unit String)
    (rawQuestion : String) : ChatResponse × Cache :=
  let question := jsTrim rawQuestion
  if question.length < 4 ∨ 800 < question.length then
    (.clientError lengthErrorMessage, st.chatCache)
  else if isBlockedMedicalQuestion question then
    (.ok guardrailRefusal [] false, st.chatCache)
  else
    match findFaqAnswer st.ragFaqs question with
    | some faqHit => (.ok (faqHit.answer ++ faqDisclaimer) faqHit.sources false, st.chatCache)
    | none =>
      let cacheKey := normalizeText question
      match getCachedAnswer st.chatCache cacheKey now ttlMs with
      | (some cached, c1) => (.ok cached.answer cached.sources true, c1)
      | (none, c1) =>
        if st.apiKey = "" then (.unavailable configErrorMessage, c1)
        else
          match retrieveContext st embedResult question contextChunks with
          | [] => (.ok noDataAnswer [] false, setCachedAnswer c1 cacheKey noDataAnswer [] now)
          | item :: rest =>
            match genResult with
            | .error _ => (.unavailable providerErrorMessage, c1)
            | .ok content =>
              let answer := if jsTrim content = "" then generationFallback else jsTrim content
              let sources := buildSourceList (item :: rest)
              let finalAnswer := answer ++ finalDisclaimer
              (.ok finalAnswer sources false, setCachedAnswer c1 cacheKey finalAnswer sources now)

/-- Shared concrete state for the concrete-input theorems: one document, no
FAQs, no embedding index, empty cache, no provider key. -/
def sampleDoc : Doc :=
  ⟨"d1", "PCOS overview", "https://example.org/pcos", "pcos is a common hormonal condition"⟩

def stNoKey : ChatState := ⟨[sampleDoc], [], none, [], ""⟩

/-! ### Chunker (`chunkText` from `scripts/build-knowledge-base.js`) -/

/-- Split on `/\n{2,}/`: a maximal run of two or more newlines separates
paragraphs; a single newline stays inside its paragraph.  `pending` counts
newlines seen but not yet classified, `cur` is the reversed current piece. -/
def splitParasGo : List Char → Nat → List Char → List (List Char)
  | [], pending, cur =>
    if 2 ≤ pending then [cur.reverse, []]
    else [(List.replicate pending '\n' ++ cur).reverse]
  | c :: cs, pending, cur =>
    if c = '\n' then splitParasGo cs (pending + 1) cur
    else
      if 2 ≤ pending then cur.reverse :: splitParasGo cs 0 [c]
      else splitParasGo cs 0 (c :: (List.replicate pending '\n' ++ cur))

/-- `text.split(/\n{2,}/)`. -/
def splitParas (text : List Char) : List (List Char) := splitParasGo text 0 []

/-- `normalizeWhitespace` from the build script: collapse whitespace runs to
single spaces and trim. -/
def normalizeWhitespace (l : List Char) : List Char := trimWs (collapseWs false l)

/-- `getTailAtWordBoundary` from the build script: the last `maxChars`
characters, shortened to the first word boundary inside the window. -/
def getTailAtWordBoundary (l : List Char) (maxChars : Nat) : List Char :=
  if l.length ≤ maxChars then l
  else
    let tail := l.drop (l.length - maxChars)
    match tail.findIdx? (fun c => c == ' ') with
    | none => tail
    | some i => tail.drop (i + 1)

/-- The `while (start < paragraph.length)` hard-slicing loop for an oversized
paragraph.  `start = Math.max(0, end - overlapChars)` is truncated `Nat`
subtraction.  The loop is driven by explicit fuel: with the initial fuel
`paragraph.length + 1` it computes exactly the JS loop whenever that loop
terminates (i.e. whenever `overlapChars < maxChars`, since then `start`
strictly increases; for configurations where the JS loop diverges the fuel
runs out instead). -/
def sliceLoop (maxChars overlapChars : Nat) (p : List Char) : Nat → Nat → List (List Char)
  | 0, _ => []
  | fuel + 1, start =>
    if start < p.length then
      let endIdx := min (start + maxChars) p.length
      let segment := trimWs ((p.drop start).take (endIdx - start))
      let segs := if segment.isEmpty then [] else [segment]
      if p.length ≤ endIdx then segs
      else segs ++ sliceLoop maxChars overlapChars p fuel (endIdx - overlapChars)
    else []

/-- `if (current) chunks.push(current)`. -/
def pushChunk (chunks : List (List Char)) (current : List Char) : List (List Char) :=
  if current.isEmpty then chunks else chunks ++ [current]

/-- The paragraph-accumulation loop of `chunkText`.  `'\n' :: '\n' :: p`
models the `` `${current}\n\n${paragraph}` `` join. -/
def chunkLoop (maxChars overlapChars : Nat) :
    List (List Char) → List (List Char) → List Char → List (List Char)
  | [], chunks, current => pushChunk chunks current
  | p :: rest, chunks, current =>
    let candidate := if current.isEmpty then p else current ++ '\n' :: '\n' :: p
    if candidate.length ≤ maxChars then chunkLoop maxChars overlapChars rest chunks candidate
    else
      let chunks1 := pushChunk chunks current
      if maxChars < p.length then
        chunkLoop maxChars overlapChars rest
          (chunks1 ++ sliceLoop maxChars overlapChars p (p.length + 1) 0) []
      else
        let ov :=
          match chunks1.getLast? with
          | some last => getTailAtWordBoundary last overlapChars
          | none => []
        chunkLoop maxChars overlapChars rest chunks1
          (if ov.isEmpty then p else ov ++ '\n' :: '\n' :: p)

/-- `chunkText` from the build script: split into normalized paragraphs,
accumulate with overlap seeding and hard-slice oversized paragraphs, then
trim the chunks and drop empty ones. -/
def chunkText (text : String) (maxChars overlapChars : Nat) : List String :=
  let paragraphs :=
    ((splitParas text.toList).map normalizeWhitespace).filter (fun p => !p.isEmpty)
  let chunks := chunkLoop maxChars overlapChars paragraphs [] []
  ((chunks.map trimWs).filter (fun c => !c.isEmpty)).map String.mk

/-! ### Embedding builder (`scripts/build-rag-embeddings.js`) -/

/-- One record of `rag/embeddings.json` (`contentHash` and vector). -/
structure EmbItem where
  id : String
  hash : String
  embedding : List ℚ
deriving DecidableEq, Repr

/-- A document awaiting embedding (`pendingDocs` element). -/
structure PendingDoc where
  id : String
  inputText : String
  hash : String
deriving DecidableEq, Repr

/-- JS `Map.get` on a map built from items keyed by `item.id`
(last binding wins). -/
def lookupLastItem (l : List EmbItem) (k : String) : Option EmbItem :=
  l.foldl (fun acc it => if it.id == k then some it else acc) none

/-- One iteration of the cache-or-pending split: reuse a prior record whose
hash matches the current `title + "\n" + content`, otherwise queue the
document.  `hash` abstracts `crypto`'s SHA-256 (the code only compares hash
values). -/
def splitDocsStep (hash : String → String) (existing : List EmbItem)
    (acc : List EmbItem × List PendingDoc) (d : Doc) : List EmbItem × List PendingDoc :=
  match lookupLastItem existing d.id with
  | some cached =>
    if cached.hash == hash (d.title ++ "\n" ++ d.content) then
      (acc.1 ++ [⟨d.id, hash (d.title ++ "\n" ++ d.content), cached.embedding⟩], acc.2)
    else (acc.1, acc.2 ++ [⟨d.id, d.title ++ "\n" ++ d.content,
      hash (d.title ++ "\n" ++ d.content)⟩])
  | none => (acc.1, acc.2 ++ [⟨d.id, d.title ++ "\n" ++ d.content,
      hash (d.title ++ "\n" ++ d.content)⟩])

/-- The `for (const doc of docs)` loop building `items` (cached) and
`pendingDocs`. -/
def splitDocs (hash : String → String) (existing : List EmbItem) (docs : List Doc) :
    List EmbItem × List PendingDoc :=
  docs.foldl (splitDocsStep hash existing) ([], [])

/-- Per-item check of one batch response: a missing `embedding` field
(`none`) aborts the build. -/
def batchItems : List PendingDoc → List (Option (List ℚ)) → Except String (List EmbItem)
  | [], _ => .ok []
  | _ :: _, [] => .error "missing embedding"
  | d :: ds, r :: rs =>
    match r with
    | none => .error "missing embedding"
    | some e =>
      match batchItems ds rs with
      | .error msg => .error msg
      | .ok t => .ok (⟨d.id, d.hash, e⟩ :: t)

/-- The sequential batch loop (`for (let i = 0; i < pendingDocs.length;
i += BATCH_SIZE)`).  `provider k` is the response of the `k`-th embedding
call; a response whose item count differs from the request count is a fatal
error. -/
def processBatches (bs : Nat) (hbs : 0 < bs) (provider : Nat → List (Option (List ℚ))) :
    Nat → List PendingDoc → Except String (List EmbItem)
  | _, [] => .ok []
  | k, d :: ds =>
    let pending := d :: ds
    let batch := pending.take bs
    let resp := provider k
    if resp.length = batch.length then
      match batchItems batch resp with
      | .error msg => .error msg
      | .ok bi =>
        match processBatches bs hbs provider (k + 1) (pending.drop bs) with
        | .error msg => .error msg
        | .ok rest => .ok (bi ++ rest)
    else .error "Embedding API returned unexpected batch response shape."
termination_by _ pending => pending.length
decreasing_by simp only [List.length_drop, List.length_cons]; omega

/-- `main` of `build-rag-embeddings.js` up to (but not including) the final
`writeFileSync`: validate config and input, split into cached and pending,
run the batches, and reorder the merged items by the documents file. -/
def buildEmbeddings (hash : String → String) (apiKey : String) (bsRaw : Nat)
    (provider : Nat → List (Option (List ℚ))) (docs : List Doc) (existing : List EmbItem) :
    Except String (List EmbItem) :=
  if apiKey = "" then .error "OPENAI_API_KEY is required."
  else if docs.isEmpty then .error "rag/documents.json must contain at least one document."
  else
    let bs := max 1 bsRaw
    let split := splitDocs hash existing docs
    match processBatches bs (Nat.lt_of_lt_of_le Nat.one_pos (Nat.le_max_left 1 bsRaw)) provider 0
        split.2 with
    | .error msg => .error msg
    | .ok newItems =>
      let items := split.1 ++ newItems
      .ok (docs.filterMap (fun d => lookupLastItem items d.id))

/-- The whole run including its effect on the persisted artifact: a thrown
error leaves `rag/embeddings.json` untouched (the only write is the final
`writeFileSync` of the successfully built index). -/
def runEmbeddingBuild (hash : String → String) (apiKey : String) (bsRaw : Nat)
    (provider : Nat → List (Option (List ℚ))) (docs : List Doc) (fsIndex : List EmbItem) :
    Except String Unit × List EmbItem :=
  match buildEmbeddings hash apiKey bsRaw provider docs fsIndex with
  | .ok items => (.ok (), items)
  | .error msg => (.error msg, fsIndex)


/-! ### Concrete sample data and sanity checks -/

/-- A cache entry used by the concrete cache theorems. -/
def sampleEntry : CacheEntry := ⟨"cached answer", [], 0⟩

/-- An 802-character guardrail-matching question. -/
def longBlockedQuestion : String := "dosage " ++ String.mk (List.replicate 795 'a')

/-- Concrete state for the C10 witness: key configured, one document, one
indexed vector. -/
def stVec : ChatState := ⟨[sampleDoc], [], some [("d1", [1])], [], "key"⟩

/-- An FAQ entry whose single prompt matches the sample query exactly. -/
def sampleFaq : Faq :=
  ⟨["what is pcos"], "Polycystic ovary syndrome is a common hormonal condition.", []⟩

/-- A document for the embedding-builder theorems. -/
def buildDoc1 : Doc := ⟨"d1", "Title", "", "Content"⟩

example : isBlockedMedicalQuestion "What dosage of metformin should I take?" = true := by decide
example : isBlockedMedicalQuestion "What lifestyle changes help with PCOS?" = false := by decide
example : isBlockedMedicalQuestion "mg" = true := by decide
example : isBlockedMedicalQuestion "omg that is cool" = false := by decide
example : isBlockedMedicalQuestion "how much of it is a mg" = true := by decide

example : tokenize "What is PCOS?" = ["what", "pcos"] := by decide
example : normalizeText "  What is  PCOS?! " = "what is pcos" := by decide

example :
    processChat stNoKey 604800000 2 0 (.error "down") (.error ()) "mg" =
      (.clientError lengthErrorMessage, []) := by decide

example :
    chunkText "abc defgh\n\nij klmnopq" 10 5 = ["abc defgh", "defgh\n\nij klmnopq"] := by decide
example : chunkText "one two\n\n\nthree" 40 5 = ["one two\n\nthree"] := by decide

/-! ## Supporting lemmas -/

theorem retrieveByKeyword_nil (question : String) (limit : Nat) :
    retrieveByKeyword [] question limit = [] := by
  unfold retrieveByKeyword
  split
  · rfl
  · simp [kScoredPos, kScoredAll]

theorem dotQ_comm (a : List ℚ) : ∀ b, dotQ a b = dotQ b a := by
  induction a with
  | nil => intro b; cases b <;> simp [dotQ]
  | cons x xs ih =>
    intro b
    cases b with
    | nil => simp [dotQ]
    | cons y ys =>
      simp only [dotQ, List.zipWith_cons_cons, List.sum_cons]
      rw [mul_comm]
      have := ih ys
      simp only [dotQ] at this
      rw [this]

theorem dotQ_self (a : List ℚ) : dotQ a a = sumSq a := by
  induction a with
  | nil => rfl
  | cons x xs ih => simp only [dotQ, sumSq, List.zipWith_cons_cons, List.sum_cons, List.map] at *; rw [ih]

theorem sumSq_nonneg (a : List ℚ) : 0 ≤ sumSq a := by
  induction a with
  | nil => simp [sumSq]
  | cons x xs ih =>
    simp only [sumSq, List.map, List.sum_cons] at *
    exact add_nonneg (mul_self_nonneg x) ih

theorem sumSq_pos {a : List ℚ} {x : ℚ} (hx : x ∈ a) (hne : x ≠ 0) : 0 < sumSq a := by
  induction a with
  | nil => exact absurd hx (List.not_mem_nil x)
  | cons y ys ih =>
    simp only [sumSq, List.map, List.sum_cons]
    rcases List.mem_cons.mp hx with h | h
    · subst h
      exact add_pos_of_pos_of_nonneg (mul_self_pos.mpr hne) (sumSq_nonneg ys)
    · exact add_pos_of_nonneg_of_pos (mul_self_nonneg y) (by simpa [sumSq] using ih h)

/-! ## Claim theorems -/

/-- C2 (amended): for every cache entry and read time, `getCachedAnswer`
returns the stored entry iff `now - timestamp ≤ TTL` (the code evicts only
when `now - timestamp > TTL`, so an entry read at exactly `T0 + TTL` is still
served); when `now - timestamp > TTL` the read evicts the entry, persists the
eviction, and reports the key as absent.  In particular an entry written at
`T0` is returned at `T0 + TTL - 1` ms and absent at `T0 + TTL + 1` ms. -/
theorem cache_read_ttl (c : Cache) (k : String) (now ttlMs : Nat) (e : CacheEntry)
    (h : lookupCache c k = some e) :
    (now - e.timestamp ≤ ttlMs → getCachedAnswer c k now ttlMs = (some e, c)) ∧
    (ttlMs < now - e.timestamp → getCachedAnswer c k now ttlMs = (none, eraseCache c k)) := by
  constructor
  · intro hle
    simp [getCachedAnswer, h, Nat.not_lt.mpr hle]
  · intro hlt
    simp [getCachedAnswer, h, hlt]

/-- C2 counterexample: with TTL = 168h = 604800000 ms, an entry written at
`T0 = 0` and read at exactly `now = T0 + TTL` does not satisfy
`now - timestamp < TTL`, yet the read still returns it — refuting the
claimed "returns ... if and only if `now - timestamp < TTL`". -/
theorem cache_ttl_boundary_cex :
    ¬ ((604800000 : Nat) - sampleEntry.timestamp < 604800000) ∧
    (getCachedAnswer [("k", sampleEntry)] "k" 604800000 604800000).1 = some sampleEntry := by
  constructor
  · decide
  · rfl

/-- C2 witness: a fresh entry is served, and a stale one is evicted. -/
theorem cache_read_ttl_witness :
    getCachedAnswer [("k", sampleEntry)] "k" 100 3600000 = (some sampleEntry, [("k", sampleEntry)]) ∧
    getCachedAnswer [("k", sampleEntry)] "k" 3600001 3600000 = (none, []) := by
  constructor
  · exact (cache_read_ttl [("k", sampleEntry)] "k" 100 3600000 sampleEntry rfl).1 (by decide)
  · exact ((cache_read_ttl [("k", sampleEntry)] "k" 3600001 3600000 sampleEntry rfl).2
      (by decide)).trans (by decide)

/-- C8: cosine similarity is symmetric; it is `1` on any non-zero vector
paired with itself; and it is `-1` whenever the dimensions mismatch, either
input is empty, or either vector has zero norm. -/
theorem cosine_similarity_props (a b : List ℚ) :
    cosineSimilarity a b = cosineSimilarity b a ∧
    ((∃ x ∈ a, x ≠ 0) → cosineSimilarity a a = 1) ∧
    ((a.length ≠ b.length ∨ a = [] ∨ b = [] ∨ sumSq a = 0 ∨ sumSq b = 0) →
      cosineSimilarity a b = -1) := by
  refine ⟨?_, ?_, ?_⟩
  · unfold cosineSimilarity
    by_cases hlen : a.length = b.length
    · have hg : (a.length ≠ b.length ∨ a.length = 0) ↔ (b.length ≠ a.length ∨ b.length = 0) := by
        constructor <;> rintro (h | h) <;> omega
      by_cases hga : a.length ≠ b.length ∨ a.length = 0
      · rw [if_pos hga, if_pos (hg.mp hga)]
      · rw [if_neg hga, if_neg (fun hh => hga (hg.mpr hh))]
        by_cases hsa : sumSq a = 0 ∨ sumSq b = 0
        · rw [if_pos hsa, if_pos (Or.comm.mp hsa)]
        · rw [if_neg hsa, if_neg (fun hh => hsa (Or.comm.mp hh))]
          rw [dotQ_comm, mul_comm]
    · rw [if_pos (Or.inl hlen), if_pos (Or.inl (fun hh => hlen hh.symm))]
  · rintro ⟨x, hx, hxne⟩
    have hpos : 0 < sumSq a := sumSq_pos hx hxne
    have hne0 : a.length ≠ 0 := by
      intro h
      rw [List.length_eq_zero] at h
      subst h
      exact List.not_mem_nil x hx
    unfold cosineSimilarity
    have hg1 : ¬ (a.length ≠ a.length ∨ a.length = 0) := by
      rintro (h | h)
      · exact h rfl
      · exact hne0 h
    have hg2 : ¬ (sumSq a = 0 ∨ sumSq a = 0) := by
      rintro (h | h) <;> exact hpos.ne' h
    rw [if_neg hg1, if_neg hg2]
    rw [dotQ_self]
    have hnn : (0 : ℝ) ≤ ((sumSq a : ℚ) : ℝ) := by exact_mod_cast sumSq_nonneg a
    rw [Real.mul_self_sqrt hnn]
    have hne : ((sumSq a : ℚ) : ℝ) ≠ 0 := by exact_mod_cast hpos.ne'
    exact div_self hne
  · rintro (h | h | h | h | h)
    · unfold cosineSimilarity
      rw [if_pos (Or.inl h)]
    · unfold cosineSimilarity
      rw [if_pos (Or.inr (by simp [h]))]
    · subst h
      unfold cosineSimilarity
      by_cases ha : a = []
      · rw [if_pos (Or.inr (by simp [ha]))]
      · rw [if_pos (Or.inl (by simp [List.length_eq_zero, ha]))]
    · unfold cosineSimilarity
      by_cases hg : a.length ≠ b.length ∨ a.length = 0
      · rw [if_pos hg]
      · rw [if_neg hg, if_pos (Or.inl h)]
    · unfold cosineSimilarity
      by_cases hg : a.length ≠ b.length ∨ a.length = 0
      · rw [if_pos hg]
      · rw [if_neg hg, if_pos (Or.inr h)]

/-- C8 witness: `similarity([1,2],[1,2]) = 1` and a zero-norm second vector
gives `-1`. -/
theorem cosine_similarity_props_witness :
    cosineSimilarity [1, 2] [1, 2] = 1 ∧ cosineSimilarity [1, 2] [0, 0] = -1 :=
  ⟨(cosine_similarity_props [1, 2] [1, 2]).2.1 ⟨1, List.mem_cons_self 1 [2], one_ne_zero⟩,
   (cosine_similarity_props [1, 2] [0, 0]).2.2
     (Or.inr (Or.inr (Or.inr (Or.inr (by simp [sumSq])))))⟩

/-- C9: the chat endpoint rejects any question whose trimmed length is below
4 or above 800 with the length error, before the guardrail filter runs: the
conclusion holds for every question satisfying the length condition, in
particular for questions that match a guardrail pattern, and the cache is
untouched. -/
theorem length_check_precedes_guardrail (st : ChatState) (ttlMs ck now : Nat)
    (eRes : Except String (List ℚ)) (gRes : Except Unit String) (q : String)
    (h : (jsTrim q).length < 4 ∨ 800 < (jsTrim q).length) :
    processChat st ttlMs ck now eRes gRes q = (.clientError lengthErrorMessage, st.chatCache) := by
  simp only [processChat]
  rw [if_pos h]

/-- C9 witness: an 802-character question matching the guardrail pattern
`\bdosage\b` still receives the length error. -/
theorem length_check_precedes_guardrail_witness :
    isBlockedMedicalQuestion (jsTrim longBlockedQuestion) = true ∧
    processChat stNoKey 604800000 2 0 (.error "down") (.error ()) longBlockedQuestion =
      (.clientError lengthErrorMessage, []) := by
  constructor
  · decide
  · exact length_check_precedes_guardrail stNoKey 604800000 2 0 (.error "down") (.error ())
      longBlockedQuestion (Or.inr (by decide))

/-- C1 (amended): for every question whose trimmed length is between 4 and
800 characters and which matches a guardrail pattern, the pipeline returns
the fixed refusal with an empty source list (not cache-served), and the
cache state is unchanged — for every prior state, so no cache entry is read,
created or evicted. -/
theorem guardrail_refusal_bypasses_cache (st : ChatState) (ttlMs ck now : Nat)
    (eRes : Except String (List ℚ)) (gRes : Except Unit String) (q : String)
    (h4 : 4 ≤ (jsTrim q).length) (h800 : (jsTrim q).length ≤ 800)
    (hb : isBlockedMedicalQuestion (jsTrim q) = true) :
    processChat st ttlMs ck now eRes gRes q = (.ok guardrailRefusal [] false, st.chatCache) := by
  simp only [processChat]
  rw [if_neg (by omega), if_pos hb]

/-- C1 counterexample: `"mg"` matches the guardrail pattern `\bmg\b`, but its
trimmed length is 2, so the pipeline returns the 400 length error, not the
fixed refusal — refuting the claim for arbitrary matching questions. -/
theorem guardrail_short_question_cex :
    isBlockedMedicalQuestion (jsTrim "mg") = true ∧
    processChat stNoKey 604800000 2 0 (.error "down") (.error ()) "mg" =
      (.clientError lengthErrorMessage, []) ∧
    ChatResponse.clientError lengthErrorMessage ≠ .ok guardrailRefusal [] false := by
  refine ⟨by decide, by decide, by decide⟩

/-- C1 witness: the spec's own example question gets the fixed refusal and
leaves the (empty) cache unchanged. -/
theorem guardrail_refusal_bypasses_cache_witness :
    processChat stNoKey 604800000 2 0 (.error "down") (.error ())
        "What dosage of metformin should I take?" = (.ok guardrailRefusal [] false, []) :=
  guardrail_refusal_bypasses_cache stNoKey 604800000 2 0 (.error "down") (.error ()) _
    (by decide) (by decide) (by decide)

/-- C4 (amended): with no provider credentials (empty API key), the
guardrail path, the FAQ path, and the cache-hit path remain fully
functional, and the retrieval engine's keyword mode needs no provider
(`retrieveContext` degrades to pure keyword retrieval); but a chat question
that misses guardrail, FAQ and cache is answered with the 503 configuration
error — the chat pipeline never reaches keyword retrieval without a key. -/
theorem missing_key_paths (st : ChatState) (ttlMs ck now : Nat)
    (eRes : Except String (List ℚ)) (gRes : Except Unit String)
    (hkey : st.apiKey = "") :
    (∀ q, ¬ ((jsTrim q).length < 4 ∨ 800 < (jsTrim q).length) →
        isBlockedMedicalQuestion (jsTrim q) = true →
        processChat st ttlMs ck now eRes gRes q = (.ok guardrailRefusal [] false, st.chatCache)) ∧
    (∀ q f, ¬ ((jsTrim q).length < 4 ∨ 800 < (jsTrim q).length) →
        isBlockedMedicalQuestion (jsTrim q) = false →
        findFaqAnswer st.ragFaqs (jsTrim q) = some f →
        processChat st ttlMs ck now eRes gRes q =
          (.ok (f.answer ++ faqDisclaimer) f.sources false, st.chatCache)) ∧
    (∀ q item c1, ¬ ((jsTrim q).length < 4 ∨ 800 < (jsTrim q).length) →
        isBlockedMedicalQuestion (jsTrim q) = false →
        findFaqAnswer st.ragFaqs (jsTrim q) = none →
        getCachedAnswer st.chatCache (normalizeText (jsTrim q)) now ttlMs = (some item, c1) →
        processChat st ttlMs ck now eRes gRes q = (.ok item.answer item.sources true, c1)) ∧
    (∀ q c1, ¬ ((jsTrim q).length < 4 ∨ 800 < (jsTrim q).length) →
        isBlockedMedicalQuestion (jsTrim q) = false →
        findFaqAnswer st.ragFaqs (jsTrim q) = none →
        getCachedAnswer st.chatCache (normalizeText (jsTrim q)) now ttlMs = (none, c1) →
        processChat st ttlMs ck now eRes gRes q = (.unavailable configErrorMessage, c1)) ∧
    (∀ q limit, retrieveContext st eRes q limit =
        (retrieveByKeyword st.ragDocuments q limit).map kToV) := by
  refine ⟨?_, ?_, ?_, ?_, ?_⟩
  · intro q hlen hb
    simp only [processChat]
    rw [if_neg hlen, if_pos hb]
  · intro q f hlen hb hf
    simp only [processChat]
    rw [if_neg hlen, if_neg (by rw [hb]; exact Bool.false_ne_true), hf]
  · intro q item c1 hlen hb hf hc
    simp only [processChat]
    rw [if_neg hlen, if_neg (by rw [hb]; exact Bool.false_ne_true), hf, hc]
  · intro q c1 hlen hb hf hc
    simp only [processChat]
    rw [if_neg hlen, if_neg (by rw [hb]; exact Bool.false_ne_true), hf, hc]
    dsimp only
    rw [if_pos hkey]
  · intro q limit
    simp only [retrieveContext]
    by_cases hdocs : st.ragDocuments.isEmpty
    · rw [if_pos hdocs, List.isEmpty_iff.mp hdocs, retrieveByKeyword_nil]
      rfl
    · rw [if_neg hdocs]
      cases hm : st.ragEmbeddings with
      | none => rfl
      | some m =>
        dsimp only
        rw [if_neg (by rintro ⟨hk, _⟩; exact hk hkey)]

theorem findFaqAnswer_no_faqs (q : String) (hq : (tokSet q).length ≠ 0) :
    findFaqAnswer [] q = none := by
  simp only [findFaqAnswer, faqPairs]
  rw [if_neg hq]
  simp

/-- C4 counterexample: with an empty API key, a well-formed question that
misses guardrail, FAQ and cache is answered with the 503 configuration
error; it never reaches keyword retrieval although keyword scoring would
have ranked the sample document positively. -/
theorem missing_key_config_error_cex :
    processChat stNoKey 604800000 2 0 (.error "down") (.error ()) "tell me about pcos" =
      (.unavailable configErrorMessage, []) ∧
    0 < keywordScore "tell me about pcos" sampleDoc := by
  constructor
  · simp only [processChat]
    rw [if_neg (by decide), if_neg (by decide),
      show findFaqAnswer stNoKey.ragFaqs (jsTrim "tell me about pcos") = none from
        findFaqAnswer_no_faqs _ (by decide)]
    rfl
  · unfold keywordScore
    rw [show overlapCount (tokSet "tell me about pcos")
        (tokSet (sampleDoc.title ++ " " ++ sampleDoc.content)) = 1 from by decide,
      show (tokSet "tell me about pcos").length = 3 from by decide]
    positivity

/-- C4 witness: the fourth conjunct applied to the concrete no-key state. -/
theorem missing_key_paths_witness :
    processChat stNoKey 604800000 2 0 (.error "down") (.error ()) "tell me about pcos" =
      (.unavailable configErrorMessage, []) :=
  (missing_key_paths stNoKey 604800000 2 0 (.error "down") (.error ()) rfl).2.2.2.1
    "tell me about pcos" [] (by decide) (by decide)
    (findFaqAnswer_no_faqs _ (by decide)) rfl

/-- C10: when a provider key is configured, the embedding index is non-empty
and the embedding call succeeds, but no indexed document scores above 0
against the query embedding, `retrieveContext` falls back to keyword
retrieval instead of returning an empty result. -/
theorem vector_no_positive_fallback (st : ChatState) (embedResult : Except String (List ℚ))
    (q : String) (limit : Nat) (qe : List ℚ) (m : List (String × List ℚ))
    (hkey : st.apiKey ≠ "") (hm : st.ragEmbeddings = some m) (hm2 : ¬ m.isEmpty)
    (hres : embedResult = .ok qe)
    (hneg : ∀ d ∈ st.ragDocuments, ∀ v, lookupLast m d.id = some v →
        ¬ 0 < cosineSimilarity qe v) :
    retrieveContext st embedResult q limit =
      (retrieveByKeyword st.ragDocuments q limit).map kToV := by
  have hscored : vectorScored qe m st.ragDocuments = [] := by
    rw [vectorScored, List.filterMap_eq_nil_iff]
    intro d hd
    cases hv : lookupLast m d.id with
    | none => rfl
    | some v =>
      dsimp only
      rw [if_neg (hneg d hd v hv)]
  simp only [retrieveContext, hm, hres]
  by_cases hdocs : st.ragDocuments.isEmpty
  · rw [if_pos hdocs, List.isEmpty_iff.mp hdocs, retrieveByKeyword_nil]
    rfl
  · rw [if_neg hdocs, if_pos ⟨hkey, hm2⟩, hscored]
    rfl

/-- C10 witness: the query embedding `[0]` has zero norm, so every cosine
score is `-1`; retrieval falls back to keyword mode. -/
theorem vector_no_positive_fallback_witness :
    retrieveContext stVec (.ok [0]) "tell me about pcos" 2 =
      (retrieveByKeyword stVec.ragDocuments "tell me about pcos" 2).map kToV := by
  refine vector_no_positive_fallback stVec (.ok [0]) "tell me about pcos" 2 [0] [("d1", [1])]
    (by decide) rfl (by decide) rfl ?_
  intro d hd v hv
  have hd1 : d = sampleDoc := by
    rcases List.mem_singleton.mp (show d ∈ [sampleDoc] from hd) with h
    exact h
  subst hd1
  have hv1 : v = [1] := by
    have : (some [(1 : ℚ)] : Option (List ℚ)) = some v := by
      rw [← hv]
      rfl
    exact (Option.some.inj this).symm
  subst hv1
  have hcs : cosineSimilarity [0] [1] = -1 := by
    unfold cosineSimilarity
    rw [if_neg (by simp), if_pos (Or.inl (by simp [sumSq]))]
  rw [hcs]
  norm_num

/-! ### Lemmas for the FAQ matcher -/

theorem pairScore_nonneg (qT : List String) (pr : Faq × String) : 0 ≤ pairScore qT pr := by
  simp only [pairScore]
  split_ifs
  · exact le_refl 0
  · exact div_nonneg (Nat.cast_nonneg _)
      (le_trans (Nat.cast_nonneg _) (le_max_left _ _))

theorem faqStep_snd (qT : List String) (acc : Option Faq × ℚ) (pr : Faq × String)
    (h : 0 ≤ acc.2) : (faqStep qT acc pr).2 = max acc.2 (pairScore qT pr) := by
  simp only [faqStep, pairScore]
  split_ifs with hp hlt
  · rw [max_eq_left h]
  · exact (max_eq_right hlt.le).symm
  · exact (max_eq_left (not_lt.mp hlt)).symm

theorem foldl_faqStep_snd (qT : List String) :
    ∀ (l : List (Faq × String)) (acc : Option Faq × ℚ), 0 ≤ acc.2 →
      (l.foldl (faqStep qT) acc).2 = l.foldl (fun s pr => max s (pairScore qT pr)) acc.2
  | [], _, _ => rfl
  | pr :: rest, acc, h => by
    rw [List.foldl_cons, List.foldl_cons]
    have h2 : 0 ≤ (faqStep qT acc pr).2 := by
      rw [faqStep_snd qT acc pr h]
      exact le_trans h (le_max_left _ _)
    rw [foldl_faqStep_snd qT rest (faqStep qT acc pr) h2, faqStep_snd qT acc pr h]

theorem foldl_faqStep_attains (qT : List String) :
    ∀ (l : List (Faq × String)) (acc : Option Faq × ℚ),
      l.foldl (faqStep qT) acc = acc ∨
        ∃ pr ∈ l, l.foldl (faqStep qT) acc = (some pr.1, pairScore qT pr)
  | [], _ => Or.inl rfl
  | pr :: rest, acc => by
    rw [List.foldl_cons]
    have hstep : faqStep qT acc pr = acc ∨
        faqStep qT acc pr = (some pr.1, pairScore qT pr) := by
      simp only [faqStep, pairScore]
      split_ifs
      · exact Or.inl rfl
      · exact Or.inr rfl
      · exact Or.inl rfl
    rcases hstep with h1 | h1
    · rw [h1]
      rcases foldl_faqStep_attains qT rest acc with h2 | ⟨pr2, hmem, heq⟩
      · exact Or.inl h2
      · exact Or.inr ⟨pr2, List.mem_cons_of_mem pr hmem, heq⟩
    · rw [h1]
      rcases foldl_faqStep_attains qT rest (some pr.1, pairScore qT pr) with h2 | ⟨pr2, hmem, heq⟩
      · exact Or.inr ⟨pr, List.mem_cons_self pr rest, h2⟩
      · exact Or.inr ⟨pr2, List.mem_cons_of_mem pr hmem, heq⟩

theorem pairScore_of_no_tokens (pr : Faq × String) : pairScore [] pr = 0 := by
  simp only [pairScore]
  split_ifs
  · rfl
  · rw [show overlapCount [] (tokSet pr.2) = 0 from rfl]
    simp

theorem bestScoreSpec_of_no_tokens (faqs : List Faq) (q : String) (hq : tokSet q = []) :
    bestScoreSpec faqs q = 0 := by
  unfold bestScoreSpec
  rw [hq]
  have hz : ∀ l : List (Faq × String),
      l.foldl (fun s pr => max s (pairScore [] pr)) 0 = 0 := by
    intro l
    induction l with
    | nil => rfl
    | cons pr rest ih =>
      rw [List.foldl_cons, pairScore_of_no_tokens pr, max_self]
      exact ih
  exact hz _

/-- C5: the FAQ matcher scores each (query, prompt) pair as
`|tokens(query) ∩ tokens(prompt)| / max(|tokens(query)|, |tokens(prompt)|)`,
tracks the single best score over all entries and prompts, and returns an
entry iff the best score is at least `0.7` (so a score of exactly `0.70` is
accepted); the returned entry attains the best score through one of its own
prompts. -/
theorem faq_threshold (faqs : List Faq) (q : String) :
    ((findFaqAnswer faqs q).isSome = true ↔ (7 : ℚ) / 10 ≤ bestScoreSpec faqs q) ∧
    (∀ f, findFaqAnswer faqs q = some f →
      ∃ p ∈ f.prompts, pairScore (tokSet q) (f, p) = bestScoreSpec faqs q) := by
  by_cases hq : (tokSet q).length = 0
  · have h0 : bestScoreSpec faqs q = 0 :=
      bestScoreSpec_of_no_tokens faqs q (List.length_eq_zero.mp hq)
    have hnone : findFaqAnswer faqs q = none := by
      simp only [findFaqAnswer]
      rw [if_pos hq]
    refine ⟨?_, ?_⟩
    · rw [hnone, h0]
      constructor
      · intro h
        simp at h
      · intro h
        norm_num at h
    · intro f hf
      rw [hnone] at hf
      exact absurd hf (by simp)
  · have hrs : ((faqPairs faqs).foldl (faqStep (tokSet q)) (none, 0)).2 =
        bestScoreSpec faqs q :=
      foldl_faqStep_snd (tokSet q) (faqPairs faqs) (none, 0) le_rfl
    have hval : findFaqAnswer faqs q =
        (if (7 : ℚ) / 10 ≤ ((faqPairs faqs).foldl (faqStep (tokSet q)) (none, 0)).2
         then ((faqPairs faqs).foldl (faqStep (tokSet q)) (none, 0)).1 else none) := by
      simp only [findFaqAnswer]
      rw [if_neg hq]
    by_cases hth : (7 : ℚ) / 10 ≤ ((faqPairs faqs).foldl (faqStep (tokSet q)) (none, 0)).2
    · obtain ⟨pr, hmem, heq⟩ : ∃ pr ∈ faqPairs faqs,
          (faqPairs faqs).foldl (faqStep (tokSet q)) (none, 0) =
            (some pr.1, pairScore (tokSet q) pr) := by
        rcases foldl_faqStep_attains (tokSet q) (faqPairs faqs) (none, 0) with h | h
        · exfalso
          rw [h] at hth
          norm_num at hth
        · exact h
      refine ⟨?_, ?_⟩
      · constructor
        · intro _
          rw [← hrs]
          exact hth
        · intro _
          rw [hval, if_pos hth, heq]
          rfl
      · intro f hf
        rw [hval, if_pos hth, heq] at hf
        have hff : pr.1 = f := Option.some.inj hf
        obtain ⟨f2, hf2mem, p, hp, hpe⟩ :=
          (by simpa [faqPairs] using hmem : ∃ a ∈ faqs, ∃ b ∈ a.prompts, (a, b) = pr)
        have hpr1 : pr.1 = f2 := by rw [← hpe]
        have hfp : (f, p) = pr := by
          rw [← hff, ← hpe]
        refine ⟨p, ?_, ?_⟩
        · rw [← hff, hpr1]
          exact hp
        · rw [hfp, ← hrs, heq]
    · have hnone : findFaqAnswer faqs q = none := by rw [hval, if_neg hth]
      refine ⟨?_, ?_⟩
      · rw [hnone]
        constructor
        · intro h
          simp at h
        · intro h
          exact absurd (by rw [hrs]; exact h) hth
      · intro f hf
        rw [hnone] at hf
        exact absurd hf (by simp)

/-- Evaluation of the matcher on the sample FAQ: the query equals the single
prompt, giving score 1 and a hit. -/
theorem findFaqAnswer_sample_eval :
    findFaqAnswer [sampleFaq] "what is pcos" = some sampleFaq := by
  have hstep : faqStep (tokSet "what is pcos") ((none : Option Faq), (0 : ℚ))
      (sampleFaq, "what is pcos") = (some sampleFaq, 1) := by
    simp only [faqStep]
    rw [if_neg (by decide)]
    rw [show overlapCount (tokSet "what is pcos") (tokSet (sampleFaq, "what is pcos").2) = 2
        from by decide,
      show (tokSet (sampleFaq, "what is pcos").2).length = 2 from by decide]
    simp only [max_self]
    norm_num
  simp only [findFaqAnswer]
  rw [if_neg (by decide),
    show faqPairs [sampleFaq] = [(sampleFaq, "what is pcos")] from by decide,
    List.foldl_cons, List.foldl_nil, hstep]
  norm_num

/-- C5 witness: the accepted sample entry attains the best score through its
own prompt. -/
theorem faq_threshold_witness :
    ∃ p ∈ sampleFaq.prompts,
      pairScore (tokSet "what is pcos") (sampleFaq, p) =
        bestScoreSpec [sampleFaq] "what is pcos" :=
  (faq_threshold [sampleFaq] "what is pcos").2 sampleFaq findFaqAnswer_sample_eval

/-! ### Lemmas for keyword retrieval -/

theorem jsCleanChar_spec (c : Char) :
    jsCleanChar c = ' ' ∨ isLowerAlnum (jsCleanChar c) = true := by
  unfold jsCleanChar
  by_cases h : isLowerAlnum c = true
  · rw [if_pos h]
    exact Or.inr h
  · rw [if_neg h]
    exact Or.inl rfl

theorem mem_collapseWs {c : Char} :
    ∀ {prev : Bool} {l : List Char}, c ∈ collapseWs prev l → c = ' ' ∨ c ∈ l := by
  intro prev l
  induction l generalizing prev with
  | nil => intro h; exact absurd h (List.not_mem_nil c)
  | cons x xs ih =>
    intro h
    simp only [collapseWs] at h
    split_ifs at h with h1 h2
    · rcases ih h with h3 | h3
      · exact Or.inl h3
      · exact Or.inr (List.mem_cons_of_mem x h3)
    · rcases List.mem_cons.mp h with h3 | h3
      · exact Or.inl h3
      · rcases ih h3 with h4 | h4
        · exact Or.inl h4
        · exact Or.inr (List.mem_cons_of_mem x h4)
    · rcases List.mem_cons.mp h with h3 | h3
      · exact Or.inr (h3 ▸ List.mem_cons_self x xs)
      · rcases ih h3 with h4 | h4
        · exact Or.inl h4
        · exact Or.inr (List.mem_cons_of_mem x h4)

theorem mem_trimWs {c : Char} {l : List Char} (h : c ∈ trimWs l) : c ∈ l := by
  unfold trimWs at h
  rw [List.mem_reverse] at h
  have h2 := (List.dropWhile_sublist _).subset h
  rw [List.mem_reverse] at h2
  exact (List.dropWhile_sublist _).subset h2

theorem normalizeText_chars (s : String) :
    ∀ c ∈ (normalizeText s).toList, c = ' ' ∨ isLowerAlnum c = true := by
  intro c hc
  have hc2 : c ∈ collapseWs false (s.toList.map (fun x => jsCleanChar (Char.toLower x))) :=
    mem_trimWs hc
  rcases mem_collapseWs hc2 with h | h
  · exact Or.inl h
  · obtain ⟨x, _, hx⟩ := List.mem_map.mp h
    rw [← hx]
    exact jsCleanChar_spec (Char.toLower x)

theorem splitSp_mem_chars :
    ∀ (l cur : List Char), ∀ piece ∈ splitSp l cur, ∀ c ∈ piece, c ∈ cur ∨ (c ∈ l ∧ c ≠ ' ')
  | [], cur => by
    intro piece hp c hc
    simp only [splitSp, List.mem_singleton] at hp
    subst hp
    exact Or.inl (List.mem_reverse.mp hc)
  | x :: xs, cur => by
    intro piece hp c hc
    by_cases hx : x = ' '
    · rw [splitSp, if_pos (by simp [hx])] at hp
      rcases List.mem_cons.mp hp with h | h
      · subst h
        exact Or.inl (List.mem_reverse.mp hc)
      · rcases splitSp_mem_chars xs [] piece h c hc with h2 | ⟨h2, h3⟩
        · exact absurd h2 (List.not_mem_nil c)
        · exact Or.inr ⟨List.mem_cons_of_mem x h2, h3⟩
    · rw [splitSp, if_neg (by simp [hx])] at hp
      rcases splitSp_mem_chars xs (x :: cur) piece hp c hc with h2 | ⟨h2, h3⟩
      · rcases List.mem_cons.mp h2 with h4 | h4
        · exact Or.inr ⟨h4 ▸ List.mem_cons_self x xs, h4 ▸ hx⟩
        · exact Or.inl h4
      · exact Or.inr ⟨List.mem_cons_of_mem x h2, h3⟩

theorem tokenize_chars (s : String) :
    ∀ t ∈ tokenize s, 2 < t.length ∧ ∀ c ∈ t.data, isLowerAlnum c = true := by
  intro t ht
  unfold tokenize at ht
  obtain ⟨ht1, ht2⟩ := List.mem_filter.mp ht
  refine ⟨of_decide_eq_true ht2, ?_⟩
  obtain ⟨piece, hpiece, hmk⟩ := List.mem_map.mp ht1
  intro c hc
  have hcp : c ∈ piece := by
    rw [← hmk] at hc
    exact hc
  rcases splitSp_mem_chars (normalizeText s).toList [] piece hpiece c hcp with h | ⟨h1, h2⟩
  · exact absurd h (List.not_mem_nil c)
  · rcases normalizeText_chars s c h1 with h3 | h3
    · exact absurd h3 h2
    · exact h3

theorem filter_score_orderedInsert (s : ℚ) (a : KScored) (L : List KScored) :
    (L.orderedInsert kDesc a).filter (fun x => decide (x.score = s)) =
      if a.score = s then a :: L.filter (fun x => decide (x.score = s))
      else L.filter (fun x => decide (x.score = s)) := by
  induction L with
  | nil =>
    by_cases ha : a.score = s
    · rw [if_pos ha]
      simp [List.orderedInsert, ha]
    · rw [if_neg ha]
      simp [List.orderedInsert, ha]
  | cons y ys ih =>
    by_cases hr : kDesc a y
    · rw [List.orderedInsert, if_pos hr]
      by_cases ha : a.score = s
      · rw [if_pos ha]
        simp [List.filter_cons, ha]
      · rw [if_neg ha]
        simp [List.filter_cons, ha]
    · rw [List.orderedInsert, if_neg hr]
      by_cases hy : y.score = s
      · by_cases ha : a.score = s
        · exact absurd (le_of_eq (hy.trans ha.symm)) hr
        · rw [if_neg ha]
          rw [List.filter_cons, List.filter_cons]
          simp only [hy, decide_True]
          rw [ih, if_neg ha]
      · by_cases ha : a.score = s
        · rw [if_pos ha]
          rw [List.filter_cons, List.filter_cons]
          simp only [hy, decide_False]
          rw [ih, if_pos ha]
          simp
        · rw [if_neg ha]
          rw [List.filter_cons, List.filter_cons]
          simp only [hy, decide_False]
          rw [ih, if_neg ha]

theorem filter_score_insertionSort (s : ℚ) (L : List KScored) :
    (L.insertionSort kDesc).filter (fun x => decide (x.score = s)) =
      L.filter (fun x => decide (x.score = s)) := by
  induction L with
  | nil => rfl
  | cons a l ih =>
    rw [List.insertionSort, filter_score_orderedInsert]
    by_cases ha : a.score = s
    · rw [if_pos ha, ih, List.filter_cons]
      simp [ha]
    · rw [if_neg ha, ih, List.filter_cons]
      simp [ha]

/-- C6: keyword retrieval tokenizes into lowercase alphanumeric tokens of
length > 2; every returned item carries the score
`|tokens(query) ∩ tokens(title+content)| / max(1, |tokens(query)|)` and has
score > 0; the result is sorted descending, has at most `limit` elements, is
stable (within each score class the result is a sublist of the positively
scored documents in original order), and is a top-K cut: every positively
scored document either appears in the result or scores no higher than
everything in it. -/
theorem keyword_retrieval_spec (q : String) (docs : List Doc) (limit : Nat) :
    (∀ t ∈ tokenize q, 2 < t.length ∧ ∀ c ∈ t.data, isLowerAlnum c = true) ∧
    (∀ x ∈ retrieveByKeyword docs q limit, x.score = keywordScore q x.doc ∧ 0 < x.score) ∧
    List.Sorted kDesc (retrieveByKeyword docs q limit) ∧
    (retrieveByKeyword docs q limit).length ≤ limit ∧
    (∀ s : ℚ, List.Sublist
      ((retrieveByKeyword docs q limit).filter (fun x => decide (x.score = s)))
      ((kScoredPos q docs).filter (fun x => decide (x.score = s)))) ∧
    (∀ y ∈ kScoredPos q docs, y ∈ retrieveByKeyword docs q limit ∨
      ∀ x ∈ retrieveByKeyword docs q limit, y.score ≤ x.score) := by
  refine ⟨tokenize_chars q, ?_, ?_, ?_, ?_, ?_⟩
  · unfold retrieveByKeyword
    split_ifs with hq
    · intro x hx
      exact absurd hx (List.not_mem_nil x)
    · intro x hx
      have hx1 : x ∈ (kScoredPos q docs).insertionSort kDesc := List.take_subset _ _ hx
      have hx2 : x ∈ kScoredPos q docs :=
        ((List.perm_insertionSort kDesc _).mem_iff).mp hx1
      obtain ⟨hx3, hx4⟩ := List.mem_filter.mp hx2
      obtain ⟨d, _, he⟩ := List.mem_map.mp hx3
      refine ⟨?_, of_decide_eq_true hx4⟩
      rw [← he]
  · unfold retrieveByKeyword
    split_ifs with hq
    · exact List.sorted_nil
    · exact List.Pairwise.sublist (List.take_sublist _ _) (List.sorted_insertionSort kDesc _)
  · unfold retrieveByKeyword
    split_ifs with hq
    · simp
    · exact List.length_take_le _ _
  · intro s
    unfold retrieveByKeyword
    split_ifs with hq
    · simp
    · have h1 := (List.take_sublist limit
        ((kScoredPos q docs).insertionSort kDesc)).filter (fun x => decide (x.score = s))
      rw [filter_score_insertionSort] at h1
      exact h1
  · intro y hy
    unfold retrieveByKeyword
    split_ifs with hq
    · right
      intro x hx
      exact absurd hx (List.not_mem_nil x)
    · have hmem : y ∈ (kScoredPos q docs).insertionSort kDesc :=
        ((List.perm_insertionSort kDesc _).mem_iff).mpr hy
      rw [← List.take_append_drop limit ((kScoredPos q docs).insertionSort kDesc)] at hmem
      rcases List.mem_append.mp hmem with h | h
      · exact Or.inl h
      · right
        intro x hx
        have hsorted := List.sorted_insertionSort kDesc (kScoredPos q docs)
        rw [← List.take_append_drop limit ((kScoredPos q docs).insertionSort kDesc)] at hsorted
        exact (List.pairwise_append.mp hsorted).2.2 x hx y h

/-- C6 witness: the token `"pcos"` of the sample query is a lowercase
alphanumeric token of length > 2. -/
theorem keyword_retrieval_spec_witness :
    2 < ("pcos" : String).length ∧ ∀ c ∈ ("pcos" : String).data, isLowerAlnum c = true :=
  (keyword_retrieval_spec "what is pcos" [sampleDoc] 2).1 "pcos" (by decide)

/-! ### Lemmas for the chunker -/

theorem trimWs_length (l : List Char) : (trimWs l).length ≤ l.length := by
  unfold trimWs
  have h1 : (l.dropWhile Char.isWhitespace).length ≤ l.length :=
    (List.dropWhile_sublist _).length_le
  have h2 : ((l.dropWhile Char.isWhitespace).reverse.dropWhile Char.isWhitespace).length ≤
      (l.dropWhile Char.isWhitespace).reverse.length :=
    (List.dropWhile_sublist _).length_le
  simp only [List.length_reverse] at *
  omega

theorem getTailAtWordBoundary_length (l : List Char) (m : Nat) :
    (getTailAtWordBoundary l m).length ≤ m := by
  simp only [getTailAtWordBoundary]
  split_ifs with h
  · exact h
  · have hlen : (l.drop (l.length - m)).length = m := by
      rw [List.length_drop]
      omega
    split
    · exact le_of_eq hlen
    · rw [List.length_drop]
      omega

theorem segment_length_le (p : List Char) (start endIdx maxChars : Nat)
    (h : endIdx ≤ start + maxChars) :
    (trimWs ((p.drop start).take (endIdx - start))).length ≤ maxChars := by
  have h1 := trimWs_length ((p.drop start).take (endIdx - start))
  have h2 : ((p.drop start).take (endIdx - start)).length ≤ endIdx - start := by
    rw [List.length_take]
    exact min_le_left _ _
  omega

theorem sliceLoop_length (maxChars overlapChars : Nat) (p : List Char) :
    ∀ fuel start, ∀ c ∈ sliceLoop maxChars overlapChars p fuel start, c.length ≤ maxChars := by
  intro fuel
  induction fuel with
  | zero =>
    intro start c hc
    exact absurd hc (List.not_mem_nil c)
  | succ n ih =>
    intro start c hc
    simp only [sliceLoop] at hc
    split_ifs at hc
    all_goals
      first
      | exact absurd hc (List.not_mem_nil c)
      | (rw [List.mem_singleton.mp hc]
         exact segment_length_le p start _ maxChars (min_le_left _ _))
      | (rcases List.mem_append.mp hc with hmem | hmem
         · exact absurd hmem (List.not_mem_nil c)
         · exact ih _ c hmem)
      | (rcases List.mem_append.mp hc with hmem | hmem
         · rw [List.mem_singleton.mp hmem]
           exact segment_length_le p start _ maxChars (min_le_left _ _)
         · exact ih _ c hmem)

theorem pushChunk_mem {chunks : List (List Char)} {current c : List Char}
    (hc : c ∈ pushChunk chunks current) : c ∈ chunks ∨ c = current := by
  unfold pushChunk at hc
  split_ifs at hc
  · exact Or.inl hc
  · rcases List.mem_append.mp hc with h | h
    · exact Or.inl h
    · exact Or.inr (List.mem_singleton.mp h)

theorem chunkLoop_length (maxChars overlapChars : Nat) :
    ∀ (paras chunks : List (List Char)) (current : List Char),
      (∀ c ∈ chunks, c.length ≤ maxChars + overlapChars + 2) →
      current.length ≤ maxChars + overlapChars + 2 →
      ∀ c ∈ chunkLoop maxChars overlapChars paras chunks current,
        c.length ≤ maxChars + overlapChars + 2
  | [], chunks, current => by
    intro hch hcur c hc
    rcases pushChunk_mem hc with h | h
    · exact hch c h
    · rw [h]
      exact hcur
  | p :: rest, chunks, current => by
    intro hch hcur c hc
    simp only [chunkLoop] at hc
    by_cases hcand : (if current.isEmpty then p else current ++ '\n' :: '\n' :: p).length ≤ maxChars
    · rw [if_pos hcand] at hc
      exact chunkLoop_length maxChars overlapChars rest chunks _ hch
        (le_trans hcand (by omega)) c hc
    · rw [if_neg hcand] at hc
      have hch1 : ∀ c2 ∈ pushChunk chunks current, c2.length ≤ maxChars + overlapChars + 2 := by
        intro c2 hc2
        rcases pushChunk_mem hc2 with h | h
        · exact hch c2 h
        · rw [h]
          exact hcur
      by_cases hbig : maxChars < p.length
      · rw [if_pos hbig] at hc
        refine chunkLoop_length maxChars overlapChars rest _ [] ?_ (by simp) c hc
        intro c2 hc2
        rcases List.mem_append.mp hc2 with h | h
        · exact hch1 c2 h
        · exact le_trans (sliceLoop_length maxChars overlapChars p _ _ c2 h) (by omega)
      · rw [if_neg hbig] at hc
        refine chunkLoop_length maxChars overlapChars rest _ _ hch1 ?_ c hc
        have hple := not_lt.mp hbig
        cases hlast : (pushChunk chunks current).getLast? with
        | none =>
          simp only [hlast] at *
          split_ifs
          · omega
          · simp only [List.length_append, List.length_cons]
            simp only [List.length_nil]
            omega
        | some last =>
          simp only [hlast] at *
          have hov := getTailAtWordBoundary_length last overlapChars
          split_ifs
          · omega
          · simp only [List.length_append, List.length_cons]
            omega

/-- C3 (amended): every chunk produced by the chunker has length at most
`MAX_CHARS + OVERLAP_CHARS + 2` (an accumulation buffer seeded with the
word-boundary overlap tail of the previous chunk joins tail, `"\n\n"` and a
paragraph of up to `MAX_CHARS` characters and is flushed as-is); hard-sliced
windows of oversized paragraphs individually satisfy `≤ MAX_CHARS`
(`sliceLoop_length` is used for exactly that bound inside the proof). -/
theorem chunk_length_bound (text : String) (maxChars overlapChars : Nat) :
    ∀ c ∈ chunkText text maxChars overlapChars, c.length ≤ maxChars + overlapChars + 2 := by
  intro c hc
  unfold chunkText at hc
  obtain ⟨l, hl, hmk⟩ := List.mem_map.mp hc
  obtain ⟨hl1, _⟩ := List.mem_filter.mp hl
  obtain ⟨l0, hl0, hlt⟩ := List.mem_map.mp hl1
  have hb := chunkLoop_length maxChars overlapChars _ [] []
    (by intro c2 hc2; exact absurd hc2 (List.not_mem_nil c2)) (by simp) l0 hl0
  have hclen : c.length = l.length := by
    rw [← hmk]
    rfl
  rw [hclen, ← hlt]
  exact le_trans (trimWs_length l0) hb

/-- C3 counterexample: with `MAX_CHARS = 10`, `OVERLAP_CHARS = 5`, the
second chunk is the overlap tail `"defgh"` joined by a blank line with the
10-character paragraph, 17 characters long — strictly more than
`MAX_CHARS` — refuting the claim that every chunk is at most `MAX_CHARS`. -/
theorem chunk_overlap_seed_cex :
    chunkText "abc defgh\n\nij klmnopq" 10 5 = ["abc defgh", "defgh\n\nij klmnopq"] ∧
    10 < ("defgh\n\nij klmnopq" : String).length := by
  refine ⟨by decide, by decide⟩

/-- C3 witness: the oversized chunk of the counterexample still satisfies
the amended bound `MAX_CHARS + OVERLAP_CHARS + 2`. -/
theorem chunk_length_bound_witness :
    ("defgh\n\nij klmnopq" : String).length ≤ 10 + 5 + 2 :=
  chunk_length_bound "abc defgh\n\nij klmnopq" 10 5 _ (by decide)

/-! ### Lemmas for the embedding builder -/

theorem batchItems_error_of_none :
    ∀ (ds : List PendingDoc) (rs : List (Option (List ℚ))),
      rs.length = ds.length → none ∈ rs → ∃ msg, batchItems ds rs = .error msg
  | _, [], _, hmem => absurd hmem (List.not_mem_nil none)
  | [], _ :: _, hlen, _ => absurd hlen (by simp)
  | d :: ds, r :: rs, hlen, hmem => by
    cases r with
    | none => exact ⟨"missing embedding", rfl⟩
    | some e =>
      have hmem2 : none ∈ rs := by
        rcases List.mem_cons.mp hmem with h | h
        · exact Option.noConfusion h
        · exact h
      obtain ⟨msg, hmsg⟩ := batchItems_error_of_none ds rs (by simpa using hlen) hmem2
      refine ⟨msg, ?_⟩
      simp only [batchItems, hmsg]

theorem batchItems_ok_ids :
    ∀ (ds : List PendingDoc) (rs : List (Option (List ℚ))) (items : List EmbItem),
      batchItems ds rs = .ok items → items.map (·.id) = ds.map (·.id)
  | [], rs, items, h => by
    have h2 := Except.ok.inj (show (Except.ok [] : Except String (List EmbItem)) = .ok items from h)
    rw [← h2]
    rfl
  | _ :: _, [], _, h => Except.noConfusion h
  | d :: ds, r :: rs, items, h => by
    cases r with
    | none => exact Except.noConfusion h
    | some e =>
      simp only [batchItems] at h
      cases hbi : batchItems ds rs with
      | error msg =>
        rw [hbi] at h
        exact Except.noConfusion h
      | ok t =>
        rw [hbi] at h
        have h2 := Except.ok.inj h
        rw [← h2]
        simp only [List.map_cons]
        rw [batchItems_ok_ids ds rs t hbi]

theorem processBatches_error (bs : Nat) (hbs : 0 < bs) (provider : Nat → List (Option (List ℚ))) :
    ∀ (i : Nat) (pending : List PendingDoc) (k0 : Nat),
      ((pending.drop (bs * i)).take bs) ≠ [] →
      ((provider (k0 + i)).length ≠ ((pending.drop (bs * i)).take bs).length ∨
        none ∈ provider (k0 + i)) →
      ∃ msg, processBatches bs hbs provider k0 pending = .error msg := by
  intro i
  induction i with
  | zero =>
    intro pending k0 hne hbad
    cases pending with
    | nil => simp at hne
    | cons d ds =>
      simp only [Nat.mul_zero, List.drop_zero, Nat.add_zero] at hne hbad
      by_cases hlen : (provider k0).length = ((d :: ds).take bs).length
      · rcases hbad with h | h
        · exact absurd hlen h
        · obtain ⟨msg, hmsg⟩ :=
            batchItems_error_of_none ((d :: ds).take bs) (provider k0) (by rw [hlen]) h
          refine ⟨msg, ?_⟩
          simp only [processBatches]
          rw [if_pos hlen, hmsg]
      · refine ⟨"Embedding API returned unexpected batch response shape.", ?_⟩
        simp only [processBatches]
        rw [if_neg hlen]
  | succ j ih =>
    intro pending k0 hne hbad
    cases pending with
    | nil => simp at hne
    | cons d ds =>
      by_cases hlen : (provider k0).length = ((d :: ds).take bs).length
      · cases hbi : batchItems ((d :: ds).take bs) (provider k0) with
        | error msg =>
          refine ⟨msg, ?_⟩
          simp only [processBatches]
          rw [if_pos hlen, hbi]
        | ok bi =>
          have harith : bs + bs * j = bs * (j + 1) := by ring
          have hidx : k0 + 1 + j = k0 + (j + 1) := by omega
          have hne2 : (((d :: ds).drop bs).drop (bs * j)).take bs ≠ [] := by
            rw [List.drop_drop, harith]
            exact hne
          have hbad2 : (provider (k0 + 1 + j)).length ≠
              ((((d :: ds).drop bs).drop (bs * j)).take bs).length ∨
              none ∈ provider (k0 + 1 + j) := by
            rw [List.drop_drop, harith, hidx]
            exact hbad
          obtain ⟨msg, hmsg⟩ := ih ((d :: ds).drop bs) (k0 + 1) hne2 hbad2
          refine ⟨msg, ?_⟩
          simp only [processBatches]
          rw [if_pos hlen, hbi, hmsg]
      · refine ⟨"Embedding API returned unexpected batch response shape.", ?_⟩
        simp only [processBatches]
        rw [if_neg hlen]

theorem processBatches_ok_ids (bs : Nat) (hbs : 0 < bs)
    (provider : Nat → List (Option (List ℚ))) :
    ∀ (pending : List PendingDoc) (k0 : Nat) (items : List EmbItem),
      processBatches bs hbs provider k0 pending = .ok items →
      items.map (·.id) = pending.map (·.id)
  | [], _, items, h => by
    simp only [processBatches] at h
    rw [← Except.ok.inj h]
    rfl
  | d :: ds, k0, items, h => by
    simp only [processBatches] at h
    by_cases hlen : (provider k0).length = ((d :: ds).take bs).length
    · rw [if_pos hlen] at h
      cases hbi : batchItems ((d :: ds).take bs) (provider k0) with
      | error msg =>
        rw [hbi] at h
        exact Except.noConfusion h
      | ok bi =>
        rw [hbi] at h
        cases hrec : processBatches bs hbs provider (k0 + 1) ((d :: ds).drop bs) with
        | error msg =>
          rw [hrec] at h
          exact Except.noConfusion h
        | ok rest =>
          rw [hrec] at h
          have hitems := Except.ok.inj h
          rw [← hitems, List.map_append,
            batchItems_ok_ids ((d :: ds).take bs) (provider k0) bi hbi,
            processBatches_ok_ids bs hbs provider ((d :: ds).drop bs) (k0 + 1) rest hrec,
            ← List.map_append, List.take_append_drop]
    · rw [if_neg hlen] at h
      exact Except.noConfusion h
termination_by pending _ _ _ => pending.length
decreasing_by simp only [List.length_drop, List.length_cons]; omega

theorem splitDocsStep_cases (hash : String → String) (existing : List EmbItem)
    (acc : List EmbItem × List PendingDoc) (d : Doc) :
    (∃ y : EmbItem, splitDocsStep hash existing acc d = (acc.1 ++ [y], acc.2) ∧ y.id = d.id) ∨
    (∃ z : PendingDoc, splitDocsStep hash existing acc d = (acc.1, acc.2 ++ [z]) ∧
      z.id = d.id) := by
  simp only [splitDocsStep]
  cases lookupLastItem existing d.id with
  | none => exact Or.inr ⟨_, rfl, rfl⟩
  | some cached =>
    dsimp only
    split_ifs
    · exact Or.inl ⟨_, rfl, rfl⟩
    · exact Or.inr ⟨_, rfl, rfl⟩

theorem splitDocs_fold_cover (hash : String → String) (existing : List EmbItem) :
    ∀ (docs : List Doc) (acc : List EmbItem × List PendingDoc),
      (∀ x ∈ acc.1, x ∈ (docs.foldl (splitDocsStep hash existing) acc).1) ∧
      (∀ x ∈ acc.2, x ∈ (docs.foldl (splitDocsStep hash existing) acc).2) ∧
      (∀ d ∈ docs,
        d.id ∈ ((docs.foldl (splitDocsStep hash existing) acc).1).map (·.id) ∨
        d.id ∈ ((docs.foldl (splitDocsStep hash existing) acc).2).map (·.id))
  | [], acc => ⟨fun _ h => h, fun _ h => h, fun d hd => absurd hd (List.not_mem_nil d)⟩
  | d0 :: rest, acc => by
    have ih := splitDocs_fold_cover hash existing rest (splitDocsStep hash existing acc d0)
    rcases splitDocsStep_cases hash existing acc d0 with ⟨y, hy, hyid⟩ | ⟨z, hz, hzid⟩
    · refine ⟨?_, ?_, ?_⟩
      · intro x hx
        rw [List.foldl_cons]
        exact ih.1 x (by rw [hy]; exact List.mem_append_left _ hx)
      · intro x hx
        rw [List.foldl_cons]
        exact ih.2.1 x (by rw [hy]; exact hx)
      · intro d hd
        rw [List.foldl_cons]
        rcases List.mem_cons.mp hd with h | h
        · subst h
          left
          have hymem := ih.1 y (by rw [hy]; exact List.mem_append_right _ (List.mem_singleton_self y))
          exact List.mem_map.mpr ⟨y, hymem, hyid⟩
        · exact ih.2.2 d h
    · refine ⟨?_, ?_, ?_⟩
      · intro x hx
        rw [List.foldl_cons]
        exact ih.1 x (by rw [hz]; exact hx)
      · intro x hx
        rw [List.foldl_cons]
        exact ih.2.1 x (by rw [hz]; exact List.mem_append_left _ hx)
      · intro d hd
        rw [List.foldl_cons]
        rcases List.mem_cons.mp hd with h | h
        · subst h
          right
          have hzmem := ih.2.1 z
            (by rw [hz]; exact List.mem_append_right _ (List.mem_singleton_self z))
          exact List.mem_map.mpr ⟨z, hzmem, hzid⟩
        · exact ih.2.2 d h

theorem lookupLastItem_fold_id (k : String) :
    ∀ (l : List EmbItem) (acc : Option EmbItem),
      (∀ a, acc = some a → a.id = k) →
      ∀ it, l.foldl (fun acc it => if it.id == k then some it else acc) acc = some it →
        it.id = k
  | [], _, h0, it, h => h0 it h
  | x :: xs, acc, h0, it, h => by
    rw [List.foldl_cons] at h
    refine lookupLastItem_fold_id k xs _ ?_ it h
    intro a ha
    by_cases hx : x.id == k
    · rw [if_pos hx] at ha
      rw [← Option.some.inj ha]
      exact eq_of_beq hx
    · rw [if_neg hx] at ha
      exact h0 a ha

theorem lookupLastItem_id {l : List EmbItem} {k : String} {it : EmbItem}
    (h : lookupLastItem l k = some it) : it.id = k :=
  lookupLastItem_fold_id k l none (fun _ ha => Option.noConfusion ha) it h

theorem lookupLastItem_fold_isSome (k : String) :
    ∀ (l : List EmbItem) (acc : Option EmbItem),
      (acc.isSome = true ∨ ∃ x ∈ l, x.id = k) →
      (l.foldl (fun acc it => if it.id == k then some it else acc) acc).isSome = true
  | [], acc, h => by
    rcases h with h | ⟨x, hx, _⟩
    · exact h
    · exact absurd hx (List.not_mem_nil x)
  | x :: xs, acc, h => by
    rw [List.foldl_cons]
    by_cases hx : x.id == k
    · refine lookupLastItem_fold_isSome k xs _ (Or.inl ?_)
      rw [if_pos hx]
      rfl
    · refine lookupLastItem_fold_isSome k xs _ ?_
      rcases h with h | ⟨y, hy, hyk⟩
      · rw [if_neg hx]
        exact Or.inl h
      · rcases List.mem_cons.mp hy with h2 | h2
        · subst h2
          exact absurd (beq_iff_eq.mpr hyk) hx
        · exact Or.inr ⟨y, h2, hyk⟩

theorem lookupLastItem_isSome_of_mem {l : List EmbItem} {k : String}
    (h : ∃ x ∈ l, x.id = k) : ∃ it, lookupLastItem l k = some it := by
  have h2 := lookupLastItem_fold_isSome k l none (Or.inr h)
  exact Option.isSome_iff_exists.mp h2

theorem filterMap_lookup_ids (items : List EmbItem) :
    ∀ (docs : List Doc), (∀ d ∈ docs, d.id ∈ items.map (·.id)) →
      (docs.filterMap (fun d => lookupLastItem items d.id)).map (·.id) = docs.map (·.id)
  | [], _ => rfl
  | d :: rest, h => by
    have hd : d.id ∈ items.map (·.id) := h d (List.mem_cons_self d rest)
    obtain ⟨x, hx, hxid⟩ := List.mem_map.mp hd
    obtain ⟨it, hit⟩ := lookupLastItem_isSome_of_mem (l := items) ⟨x, hx, hxid⟩
    rw [List.filterMap_cons, hit]
    simp only [List.map_cons]
    rw [lookupLastItem_id hit,
      filterMap_lookup_ids items rest (fun d2 h2 => h d2 (List.mem_cons_of_mem d h2))]

/-- C7: if any embedding batch the run would issue comes back with a wrong
item count or a missing embedding vector, the whole run aborts with an error
and the persisted index is left exactly as it was (no partial artifact);
and when the run succeeds, the written index lists one record per document
in the original document-file order. -/
theorem embedding_build_failfast_order (hash : String → String) (apiKey : String)
    (bsRaw : Nat) (provider : Nat → List (Option (List ℚ))) (docs : List Doc)
    (fsIndex : List EmbItem) :
    ((∃ i, (((splitDocs hash fsIndex docs).2.drop (max 1 bsRaw * i)).take (max 1 bsRaw)) ≠ [] ∧
        ((provider i).length ≠
          ((((splitDocs hash fsIndex docs).2.drop (max 1 bsRaw * i)).take (max 1 bsRaw)).length) ∨
          none ∈ provider i)) →
      (∃ msg, (runEmbeddingBuild hash apiKey bsRaw provider docs fsIndex).1 = .error msg) ∧
        (runEmbeddingBuild hash apiKey bsRaw provider docs fsIndex).2 = fsIndex) ∧
    ((runEmbeddingBuild hash apiKey bsRaw provider docs fsIndex).1 = .ok () →
      ((runEmbeddingBuild hash apiKey bsRaw provider docs fsIndex).2).map (·.id) =
        docs.map (·.id)) := by
  constructor
  · rintro ⟨i, hne, hbad⟩
    unfold runEmbeddingBuild
    cases hb : buildEmbeddings hash apiKey bsRaw provider docs fsIndex with
    | error msg => exact ⟨⟨msg, rfl⟩, rfl⟩
    | ok items =>
      exfalso
      simp only [buildEmbeddings] at hb
      split_ifs at hb
      obtain ⟨msg, hmsg⟩ := processBatches_error (max 1 bsRaw)
        (Nat.lt_of_lt_of_le Nat.one_pos (Nat.le_max_left 1 bsRaw)) provider i
        (splitDocs hash fsIndex docs).2 0 hne (by rw [Nat.zero_add]; exact hbad)
      rw [hmsg] at hb
      exact Except.noConfusion hb
  · intro h
    unfold runEmbeddingBuild at h ⊢
    cases hb : buildEmbeddings hash apiKey bsRaw provider docs fsIndex with
    | error msg =>
      rw [hb] at h
      exact Except.noConfusion h
    | ok items =>
      simp only
      simp only [buildEmbeddings] at hb
      split_ifs at hb
      cases hpb : processBatches (max 1 bsRaw)
          (Nat.lt_of_lt_of_le Nat.one_pos (Nat.le_max_left 1 bsRaw)) provider 0
          (splitDocs hash fsIndex docs).2 with
      | error msg =>
        rw [hpb] at hb
        exact Except.noConfusion hb
      | ok newItems =>
        rw [hpb] at hb
        rw [← Except.ok.inj hb]
        apply filterMap_lookup_ids
        intro d hd
        have hcov := (splitDocs_fold_cover hash fsIndex docs ([], [])).2.2 d hd
        have hids : newItems.map (·.id) = ((splitDocs hash fsIndex docs).2).map (·.id) :=
          processBatches_ok_ids (max 1 bsRaw)
            (Nat.lt_of_lt_of_le Nat.one_pos (Nat.le_max_left 1 bsRaw)) provider
            (splitDocs hash fsIndex docs).2 0 newItems hpb
        rw [List.map_append]
        rcases hcov with hc | hc
        · exact List.mem_append_left _ hc
        · refine List.mem_append_right _ ?_
          rw [hids]
          exact hc

/-- C7 witness: a provider that answers the one-document batch with an empty
list triggers the count-mismatch abort and the persisted index (empty here)
is unchanged. -/
theorem embedding_build_failfast_order_witness :
    (∃ msg, (runEmbeddingBuild (fun s => s) "k" 2 (fun _ => []) [buildDoc1] []).1 =
      .error msg) ∧
    (runEmbeddingBuild (fun s => s) "k" 2 (fun _ => []) [buildDoc1] []).2 = [] :=
  (embedding_build_failfast_order (fun s => s) "k" 2 (fun _ => []) [buildDoc1] []).1
    ⟨0, by decide, Or.inl (by decide)⟩
